import Mathlib

/-!
Verification of the snapshot-lifecycle pipeline of the
brightdata-email-extractor repository.

The Python sources are shallowly embedded here:
  - `email_scraper.py` : `BrightdataClient.get_snapshot_data` (payload
    validation), `SupabaseClient.save_response` / `save_email` /
    `mark_as_processed` / `mark_email_extracted` /
    `get_unextracted_responses`, `EmailScraperEngine.process_queries`.
  - `worker.py` : `extract_emails_from_text`, `process_stage2`,
    `process_stage3`.
  - `app.py` : `filter_queries` and the per-snapshot body of
    `process_unprocessed_snapshots`.

External effects (HTTP transport, the Supabase store, unexpected
exceptions) are modelled by explicit environment records; the store is a
pure value threaded through each pass.  A retrieved JSON document is
modelled by the two observations the code makes of it: its
`json.dumps` serialization and its Python truthiness.
-/

/-! ## String utilities (Python `in`, `str.lower`, `str.strip`) -/

/-- Boolean substring test on character lists: `listHasSub pat l` is true
when `pat` occurs contiguously inside `l` (the semantics of Python's
`pat in l`). -/
def listHasSub (pat : List Char) : List Char → Bool
  | [] => pat.isEmpty
  | c :: cs => pat.isPrefixOf (c :: cs) || listHasSub pat cs

/-- Python's `pat in s` on strings. -/
def containsSub (s pat : String) : Bool := listHasSub pat.data s.data

/-- Python's `s.lower()` (ASCII case folding, which is all the code's
payloads exercise). -/
def lowerStr (s : String) : String := String.mk (s.data.map Char.toLower)

/-! ## SnapshotValidator — `BrightdataClient.get_snapshot_data`
(`email_scraper.py` lines 49-107) -/

/-- The serialization of a Python JSON document together with its Python
truthiness — the only two observations `get_snapshot_data` and its
callers make of the parsed `data` object. -/
structure PyObj where
  dumped : String
  truthy : Bool
deriving DecidableEq, Repr

/-- Outcome of the HTTP retrieval inside `get_snapshot_data`: a decoded
JSON document, a `requests` transport failure, or a JSON decode
failure. -/
inductive HttpOutcome where
  | ok (d : PyObj)
  | requestError (msg : String)
  | decodeError (msg : String)

/-- Condition 1 of the validator: `'"status":"running"' in data_str or
'"status": "running"' in data_str`. -/
def runningMarker (s : String) : Bool :=
  containsSub s "\"status\":\"running\"" || containsSub s "\"status\": \"running\""

/-- Condition 2's error indicator: `'error' in data_str.lower()`. -/
def containsErrorCI (s : String) : Bool := containsSub (lowerStr s) "error"

/-- The reason string built when condition 2 rejects a payload of the
given byte size. -/
def errSizeReason (size : Nat) : String :=
  "Contains error and size < 2000 bytes (actual: " ++ Nat.repr size ++ ")"

/-- The `is_valid` / `error_reason` computation of `get_snapshot_data`:
condition 1 (running marker), else condition 2 (error indicator and
UTF-8 byte size below 2000). -/
def validate (data_str : String) : Bool × String :=
  if runningMarker data_str then
    (false, "Status is running")
  else if containsErrorCI data_str then
    (if data_str.utf8ByteSize < 2000 then
      (false, errSizeReason data_str.utf8ByteSize)
     else (true, ""))
  else (true, "")

/-- `is_running = not is_valid and "running" in error_reason`. -/
def isRunningFlag (valid : Bool) (reason : String) : Bool :=
  !valid && containsSub reason "running"

/-- The three-valued verdict of the spec, as derived by the code's
consumers from the `(is_valid, is_running)` pair. -/
inductive Classification where
  | stillProcessing
  | invalidError
  | valid
deriving DecidableEq, Repr

/-- Classification of a serialized payload: `valid` when `is_valid`,
otherwise `still-processing` when the reason re-derivation flags
`running`, otherwise `invalid-error`. -/
def classify (s : String) : Classification :=
  let vr := validate s
  if vr.1 then .valid
  else if isRunningFlag vr.1 vr.2 then .stillProcessing
  else .invalidError

/-- Embedding of `get_snapshot_data`: returns
`(data, is_running, is_valid, error_reason)`; transport and decode
failures return no data and a failure reason. -/
def get_snapshot_data : HttpOutcome → Option PyObj × Bool × Bool × String
  | .ok d =>
    let vr := validate d.dumped
    (some d, isRunningFlag vr.1 vr.2, vr.1, vr.2)
  | .requestError m => (none, false, false, "Request error: " ++ m)
  | .decodeError m => (none, false, false, "JSON decode error: " ++ m)

/-! ## ExtractionEngine regex — `extract_emails_from_text`
(`worker.py` lines 32-42, `app.py` lines 1075-1092)

The Python pattern is
`\b[A-Za-z0-9._%+-]+@[A-Za-z0-9.-]+\.[A-Z|a-z]{2,}\b`
run by `re.findall`, then deduplicated with `list(set(...))`.  The
matcher below implements Python `re` semantics for this pattern shape:
leftmost scan, greedy character-class repetition with backtracking into
the sequel, word-boundary assertions, resuming after each match. -/

/-- `[A-Za-z0-9._%+-]` — the local-part class. -/
def isLocalChar (c : Char) : Bool :=
  c.isAlpha || c.isDigit || c = '.' || c = '_' || c = '%' || c = '+' || c = '-'

/-- `[A-Za-z0-9.-]` — the domain class. -/
def isDomainChar (c : Char) : Bool :=
  c.isAlpha || c.isDigit || c = '.' || c = '-'

/-- `[A-Z|a-z]` — the top-level-domain class of the source pattern (the
`|` inside the class is a literal). -/
def isTldChar (c : Char) : Bool := c.isAlpha || c = '|'

/-- `\w` for the `\b` assertions (ASCII view). -/
def isWordChar (c : Char) : Bool := c.isAlpha || c.isDigit || c = '_'

/-- Word-ness of an optional neighbouring character (absent = non-word). -/
def wordB : Option Char → Bool
  | some c => isWordChar c
  | none => false

/-- Word-ness of the character at the current scan position. -/
def headW : List Char → Bool
  | [] => false
  | c :: _ => isWordChar c

/-- One token of the (linear) regex: a word boundary, a literal
character, or a greedy character-class repetition with a minimum
count. -/
inductive RTok where
  | bdry
  | lit (c : Char)
  | cls (p : Char → Bool) (mn : Nat)

/-- Backtracking matcher for a token sequence against `rest`, with
`prev` the character just before the scan position (for `\b`).  Returns
the consumed prefix on success.  Greedy repetition prefers consuming a
class character and falls back to the sequel only when the minimum
count is met.  `fuel` only bounds recursion depth; `matchTop` supplies
a depth that the lexicographic measure (remaining input, remaining
tokens) never exhausts. -/
def matchSeqF : Nat → List RTok → Option Char → List Char → Option (List Char)
  | 0, _, _, _ => none
  | Nat.succ f, toks, prev, rest =>
    match toks with
    | [] => some []
    | .bdry :: ts =>
      if wordB prev != headW rest then matchSeqF f ts prev rest else none
    | .lit c :: ts =>
      match rest with
      | [] => none
      | r :: rs =>
        if r = c then (matchSeqF f ts (some r) rs).map (fun m => r :: m) else none
    | .cls p mn :: ts =>
      match rest with
      | [] => if mn == 0 then matchSeqF f ts prev [] else none
      | c :: cs =>
        if p c then
          match matchSeqF f (.cls p (mn - 1) :: ts) (some c) cs with
          | some m => some (c :: m)
          | none => if mn == 0 then matchSeqF f ts prev rest else none
        else if mn == 0 then matchSeqF f ts prev rest else none

/-- Entry point of the matcher with sufficient fuel: every recursive
call shrinks `(rest.length, toks.length)` lexicographically and the
token list never grows, so `(rest.length + 1) * (toks.length + 2)`
steps always suffice. -/
def matchTop (toks : List RTok) (prev : Option Char) (rest : List Char) :
    Option (List Char) :=
  matchSeqF ((rest.length + 1) * (toks.length + 2)) toks prev rest

/-- `re.findall` scan: try a match at each position; on success record
it and resume right after it (advancing one character on a zero-width
match), otherwise advance one character. -/
def findAllAux : Nat → List RTok → Option Char → List Char → List (List Char)
  | 0, _, _, _ => []
  | Nat.succ f, toks, prev, rest =>
    match matchTop toks prev rest with
    | some [] =>
      (match rest with
       | [] => [[]]
       | c :: cs => [] :: findAllAux f toks (some c) cs)
    | some (d :: m) =>
      (match rest with
       | [] => [d :: m]
       | _ :: cs => (d :: m) :: findAllAux f toks (some (List.getLastD m d)) (cs.drop m.length))
    | none =>
      match rest with
      | [] => []
      | c :: cs => findAllAux f toks (some c) cs

/-- `re.findall(pattern, s)` for a linear pattern. -/
def findAll (toks : List RTok) (s : String) : List String :=
  (findAllAux (s.length + 1) toks none s.data).map String.mk

/-- The email pattern `\b[A-Za-z0-9._%+-]+@[A-Za-z0-9.-]+\.[A-Z|a-z]{2,}\b`. -/
def emailPattern : List RTok :=
  [.bdry, .cls isLocalChar 1, .lit '@', .cls isDomainChar 1, .lit '.',
   .cls isTldChar 2, .bdry]

/-- `extract_emails_from_text`: find all pattern matches and collapse
duplicates (`list(set(emails))`, modelled as list deduplication). -/
def extract_emails_from_text (text : String) : List String :=
  (findAll emailPattern text).dedup

/-- `extract_emails_from_json`: serialize and extract — the serialized
form is the `dumped` observation of the document. -/
def extract_emails_from_json (d : PyObj) : List String :=
  extract_emails_from_text d.dumped

/-! ## Stage-2 retrieval pass — `worker.process_stage2`
(`worker.py` lines 45-92) with the store operations of
`email_scraper.py` (`save_response` lines 289-320, `mark_as_processed`
lines 242-259). -/

/-- A row of `snapshot_table`. -/
structure SnapRow where
  snapshot_id : String
  processed : Bool
deriving DecidableEq, Repr

/-- The persistent store as seen by stage 2: the snapshot table and the
set of `snapshot_id` keys present in `response_table` (whose uniqueness
constraint produces the duplicate rejections). -/
structure Store2 where
  snaps : List SnapRow
  resps : List String
deriving DecidableEq, Repr

/-- External behaviour for one stage-2 pass: the Brightdata retrieval
per snapshot id, non-duplicate `response_table` insert failures, and
whether the `processed`-flag update succeeds. -/
structure Env2 where
  fetch : String → HttpOutcome
  saveErr : String → Bool
  markOk : String → Bool

/-- `SupabaseClient.save_response`: the insert is rejected as
`duplicate` when a response row for the id already exists, fails as
`error` on any other store failure, and otherwise creates the row.
Returns the updated store with `(success, error_type)`. -/
def save_response (env : Env2) (store : Store2) (id : String) :
    Store2 × Bool × String :=
  if store.resps.contains id then (store, false, "duplicate")
  else if env.saveErr id then (store, false, "error")
  else ({ store with resps := id :: store.resps }, true, "")

/-- `SupabaseClient.mark_as_processed`: sets `processed = true` on the
rows with the given id when the update succeeds. -/
def mark_as_processed (env : Env2) (store : Store2) (id : String) :
    Store2 × Bool :=
  if env.markOk id then
    ({ store with
        snaps := store.snaps.map fun r =>
          if r.snapshot_id = id then { r with processed := true } else r },
     true)
  else (store, false)

/-- `SupabaseClient.get_unprocessed_snapshots`: the rows with
`processed = false`. -/
def get_unprocessed_snapshots (store : Store2) : List SnapRow :=
  store.snaps.filter fun r => !r.processed

/-- One iteration item of the stage-2 loop: a fetched row whose
`snapshot_id` is falsy, a row whose body raises an unexpected
exception (absorbed by the per-item `except`), or a normal row. -/
inductive Stage2Item where
  | noId
  | exn (id : String)
  | item (id : String)

/-- The statistics dictionary returned by `process_stage2`. -/
structure Stage2Stats where
  total : Nat
  successful : Nat
  failed : Nat
  skipped : Nat
deriving DecidableEq, Repr

/-- The body of the `for snap in snapshots` loop of `process_stage2`:
skip still-running snapshots, count missing data as failure, persist
otherwise, marking the snapshot processed on success or duplicate. -/
def stage2Step (env : Env2) (acc : Store2 × Stage2Stats) (it : Stage2Item) :
    Store2 × Stage2Stats :=
  let store := acc.1
  let stats := acc.2
  match it with
  | .noId => (store, { stats with failed := stats.failed + 1 })
  | .exn _ => (store, { stats with failed := stats.failed + 1 })
  | .item id =>
    let r := get_snapshot_data (env.fetch id)
    let dataOpt := r.1
    let is_running := r.2.1
    let is_valid := r.2.2.1
    if !is_valid && is_running then
      (store, { stats with skipped := stats.skipped + 1 })
    else
      match dataOpt with
      | none => (store, { stats with failed := stats.failed + 1 })
      | some _ =>
        let sr := save_response env store id
        let store1 := sr.1
        if sr.2.1 then
          ((mark_as_processed env store1 id).1,
           { stats with successful := stats.successful + 1 })
        else if sr.2.2 = "duplicate" then
          ((mark_as_processed env store1 id).1,
           { stats with skipped := stats.skipped + 1 })
        else
          (store1, { stats with failed := stats.failed + 1 })

/-- `process_stage2`: fold the loop body over the fetched snapshot
list; `total` is the length of that list. -/
def process_stage2 (env : Env2) (items : List Stage2Item) (store : Store2) :
    Store2 × Stage2Stats :=
  items.foldl (stage2Step env) (store, ⟨items.length, 0, 0, 0⟩)

/-- The items the worker actually iterates over: one `.item` per
unprocessed snapshot row. -/
def stage2Items (store : Store2) : List Stage2Item :=
  (get_unprocessed_snapshots store).map fun r => .item r.snapshot_id

/-- `processed` holds for every snapshot row carrying this id. -/
def snapProcessed (store : Store2) (id : String) : Bool :=
  store.snaps.all fun r => !(r.snapshot_id == id) || r.processed

/-! ## Per-snapshot retrieval step of `app.process_unprocessed_snapshots`
(`app.py` lines 892-947) — the RetrievalCoordinator variant that keeps
a dedicated duplicate counter. -/

/-- The counters of `process_unprocessed_snapshots`. -/
structure AppStats where
  successful : Nat
  failed : Nat
  skipped : Nat
  invalid_responses : Nat
  running_snapshots : Nat
  duplicate_snapshots : Nat
  db_errors : Nat
deriving DecidableEq, Repr

/-- One item of the app retrieval loop: either the body raises during
retrieval (caught per item) or the snapshot is processed normally. -/
inductive AppItem where
  | exn (id : String)
  | item (id : String)

/-- The per-snapshot body of `process_unprocessed_snapshots`: invalid
classifications are counted and leave the store untouched; valid
truthy data is persisted, with the duplicate rejection still marking
the snapshot processed. -/
def appStep (env : Env2) (acc : Store2 × AppStats) (it : AppItem) :
    Store2 × AppStats :=
  let store := acc.1
  let stats := acc.2
  match it with
  | .exn _ => (store, { stats with failed := stats.failed + 1 })
  | .item id =>
    let r := get_snapshot_data (env.fetch id)
    let dataOpt := r.1
    let is_running := r.2.1
    let is_valid := r.2.2.1
    if !is_valid then
      (store,
       { stats with
          invalid_responses := stats.invalid_responses + 1,
          running_snapshots :=
            stats.running_snapshots + (if is_running then 1 else 0) })
    else
      match dataOpt with
      | some d =>
        if d.truthy then
          let sr := save_response env store id
          let store1 := sr.1
          if sr.2.1 then
            let mr := mark_as_processed env store1 id
            if mr.2 then
              (mr.1, { stats with successful := stats.successful + 1 })
            else
              (mr.1,
               { stats with
                  failed := stats.failed + 1,
                  db_errors := stats.db_errors + 1 })
          else if sr.2.2 = "duplicate" then
            ((mark_as_processed env store1 id).1,
             { stats with duplicate_snapshots := stats.duplicate_snapshots + 1 })
          else
            (store1,
             { stats with
                failed := stats.failed + 1,
                db_errors := stats.db_errors + 1 })
        else (store, { stats with skipped := stats.skipped + 1 })
      | none => (store, { stats with skipped := stats.skipped + 1 })

/-! ## QueryDeduplicator — `app.filter_queries` (`app.py` lines 134-173) -/

/-- Python's `query.lower().strip()` — the normalized comparison key. -/
def normQ (q : String) : String := (lowerStr q).trim

/-- The first loop of `filter_queries`: keep a query when its key is
non-empty and not yet in `seen`, preserving order and original
casing. -/
def uniqueAux (seen : List String) : List String → List String
  | [] => []
  | q :: rest =>
    let k := normQ q
    if k ≠ "" ∧ k ∉ seen then q :: uniqueAux (k :: seen) rest
    else uniqueAux seen rest

/-- The dictionary returned by `filter_queries`. -/
structure FilterResult where
  total_uploaded : Nat
  duplicates_in_csv : Nat
  unique_in_csv : Nat
  new_queries : List String
  existing_in_db : List String
  new_count : Nat
  existing_count : Nat
deriving DecidableEq, Repr

/-- `filter_queries`: deduplicate the upload case-insensitively, then
partition the unique entries by membership of their key in the
persisted (lower-cased) query set. -/
def filter_queries (uploaded existing : List String) : FilterResult :=
  let uniq := uniqueAux [] uploaded
  let newQ := uniq.filter fun q => normQ q ∉ existing
  let exQ := uniq.filter fun q => normQ q ∈ existing
  { total_uploaded := uploaded.length
    duplicates_in_csv := uploaded.length - uniq.length
    unique_in_csv := uniq.length
    new_queries := newQ
    existing_in_db := exQ
    new_count := newQ.length
    existing_count := exQ.length }

/-- Specification-side reformulation of the deduplication, following
the spec's words: an entry is kept exactly when its normalized key is
non-empty and no *earlier* entry of the same input has the same key
(first occurrence wins, order and casing preserved). -/
def filterUniqueSpec (earlier : List String) : List String → List String
  | [] => []
  | q :: rest =>
    if normQ q ≠ "" ∧ ∀ p ∈ earlier, normQ p ≠ normQ q then
      q :: filterUniqueSpec (earlier ++ [q]) rest
    else filterUniqueSpec (earlier ++ [q]) rest

/-! ## Stage-3 extraction pass — `worker.process_stage3`
(`worker.py` lines 95-144) with `save_email`, `mark_email_extracted`
and `get_unextracted_responses` from `email_scraper.py`. -/

/-- A row of `response_table`.  `snapshot_id`/`response` are optional to
model the falsy checks of the loop body; `exn` injects an unexpected
per-row exception (absorbed by the per-item `except`). -/
structure RespRow where
  snapshot_id : Option String
  response : Option PyObj
  extracted : Bool
  exn : Bool
deriving DecidableEq, Repr

/-- The store as seen by stage 3: the response table and the set of
addresses in `email_table` (unique key on the address). -/
structure Store3 where
  resps : List RespRow
  emails : List String
deriving DecidableEq, Repr

/-- External behaviour for stage 3: whether the `is_email_extracted`
update succeeds for an id, and non-duplicate `email_table` insert
failures. -/
structure Env3 where
  markOk : String → Bool
  saveEmailErr : String → Bool

/-- `SupabaseClient.get_unextracted_responses`: filter on
`is_email_extracted = false`, then `range(offset, offset + limit - 1)`. -/
def get_unextracted_responses (store : Store3) (limit offset : Nat) :
    List RespRow :=
  (((store.resps.filter fun r => !r.extracted).drop offset).take limit)

/-- `SupabaseClient.save_email`: duplicate when the address is already
present, `error` on other insert failures, otherwise insert. -/
def save_email (env : Env3) (store : Store3) (e : String) :
    Store3 × Bool × String :=
  if store.emails.contains e then (store, false, "duplicate")
  else if env.saveEmailErr e then (store, false, "error")
  else ({ store with emails := e :: store.emails }, true, "")

/-- `SupabaseClient.mark_email_extracted`: sets
`is_email_extracted = true` on the rows with the given id when the
update succeeds. -/
def mark_email_extracted (env : Env3) (store : Store3) (id : String) :
    Store3 × Bool :=
  if env.markOk id then
    ({ store with
        resps := store.resps.map fun r =>
          if r.snapshot_id = some id then { r with extracted := true } else r },
     true)
  else (store, false)

/-- The statistics dictionary returned by `process_stage3`. -/
structure Stage3Stats where
  total : Nat
  successful : Nat
  failed : Nat
  emails : Nat
  duplicate_emails : Nat
deriving DecidableEq, Repr

/-- The `for email in emails` loop of `process_stage3`: persist each
address, counting new addresses and duplicate rejections (other insert
failures are not counted by the worker). -/
def processEmails (env : Env3) (acc : Store3 × Stage3Stats) :
    List String → Store3 × Stage3Stats
  | [] => acc
  | e :: es =>
    let sr := save_email env acc.1 e
    let stats :=
      if sr.2.1 then { acc.2 with emails := acc.2.emails + 1 }
      else if sr.2.2 = "duplicate" then
        { acc.2 with duplicate_emails := acc.2.duplicate_emails + 1 }
      else acc.2
    processEmails env (sr.1, stats) es

/-- The body of the `for row in rows` loop of `process_stage3`: rows
with falsy id or missing payload fail; otherwise extract, persist the
addresses, and mark the row extracted (counting a failed mark). Every
path increments the processed total. -/
def processRow (env : Env3) (acc : Store3 × Stage3Stats) (row : RespRow) :
    Store3 × Stage3Stats :=
  let store := acc.1
  let stats := acc.2
  match row.snapshot_id, row.response with
  | some id, some d =>
    if row.exn then
      (store, { stats with failed := stats.failed + 1, total := stats.total + 1 })
    else
      let es := extract_emails_from_json d
      let acc1 := processEmails env (store, stats) es
      let mr := mark_email_extracted env acc1.1 id
      let stats2 :=
        if mr.2 then { acc1.2 with successful := acc1.2.successful + 1 }
        else { acc1.2 with failed := acc1.2.failed + 1 }
      (mr.1, { stats2 with total := stats2.total + 1 })
  | _, _ =>
    (store, { stats with failed := stats.failed + 1, total := stats.total + 1 })

/-- Processing of one fetched page. -/
def processPage (env : Env3) (acc : Store3 × Stage3Stats)
    (rows : List RespRow) : Store3 × Stage3Stats :=
  rows.foldl (processRow env) acc

/-- The `while True` loop of `process_stage3`: re-fetch the first
`batch_size` unextracted rows from offset zero, stop when none remain.
The source loop is unbounded; `fuel` bounds the iterations of the
embedding, with `none` meaning the budget was exhausted before the
loop's own exit condition fired. -/
def process_stage3 (env : Env3) (batch_size : Nat) :
    Nat → Store3 × Stage3Stats → Option (Store3 × Stage3Stats)
  | 0, _ => none
  | Nat.succ f, acc =>
    let rows := get_unextracted_responses acc.1 batch_size 0
    if rows.isEmpty then some acc
    else process_stage3 env batch_size f (processPage env acc rows)

/-- The number of unextracted rows. -/
def unexCount (store : Store3) : Nat :=
  (store.resps.filter fun r => !r.extracted).length

/-- Every response row carrying this id is marked extracted. -/
def idExtracted (store : Store3) (id : String) : Prop :=
  ∀ r ∈ store.resps, r.snapshot_id = some id → r.extracted = true

instance (store : Store3) (id : String) : Decidable (idExtracted store id) :=
  inferInstanceAs (Decidable (∀ r ∈ store.resps, _ → _))

/-- A store of well-formed response rows for an environment: every row
has a (non-null) primary key and payload — as the store schema
enforces — raises no unexpected exception, and its flag update
succeeds. -/
def goodStore (env : Env3) (store : Store3) : Prop :=
  ∀ r ∈ store.resps,
    r.exn = false ∧ r.response ≠ none ∧
    ∃ id, r.snapshot_id = some id ∧ env.markOk id = true

/-! ## BatchSubmitter — `EmailScraperEngine.process_queries`
(`email_scraper.py` lines 425-483) -/

/-- The batches `queries[i:i+batch_size]` of the submission loop, via
structural fuel (the list length; `range(0, n, B)` with `B ≥ 1` takes
at most `n` steps). -/
def chunksFuel (B : Nat) : Nat → List String → List (List String)
  | _, [] => []
  | 0, _ :: _ => []
  | Nat.succ f, q :: qs => ((q :: qs).take B) :: chunksFuel B f ((q :: qs).drop B)

/-- The batch partition of a query list. -/
def chunks (B : Nat) (l : List String) : List (List String) :=
  chunksFuel B l.length l

/-- External behaviour for submission: `send_request` yields the
snapshot id of a successful submission (`None` models transport
failure or a response without `snapshot_id`), and `save_snapshot`
reports whether the snapshot row was persisted. -/
structure SubmitEnv where
  send_request : List String → Option String
  save_snapshot : String → List String → Bool

/-- The statistics dictionary returned by `process_queries`. -/
structure ProcessStats where
  total_queries : Nat
  successful_snapshots : Nat
  failed_batches : Nat
  total_batches : Nat
  submitted_ids : List String
  snapshot_query_map : List (String × List String)
deriving DecidableEq, Repr

/-- One iteration of the submission loop: submit the batch; on success
persist the snapshot and record the id→queries mapping, otherwise
count a failed batch. `batch_count` increments either way. -/
def processBatch (env : SubmitEnv) (st : ProcessStats) (batch : List String) :
    ProcessStats :=
  match env.send_request batch with
  | some sid =>
    if env.save_snapshot sid batch then
      { st with
          successful_snapshots := st.successful_snapshots + 1,
          submitted_ids := st.submitted_ids ++ [sid],
          snapshot_query_map := st.snapshot_query_map ++ [(sid, batch)],
          total_batches := st.total_batches + 1 }
    else
      { st with
          failed_batches := st.failed_batches + 1,
          total_batches := st.total_batches + 1 }
  | none =>
    { st with
        failed_batches := st.failed_batches + 1,
        total_batches := st.total_batches + 1 }

/-- `process_queries`: fold the submission loop over the batches. -/
def process_queries (env : SubmitEnv) (queries : List String)
    (batch_size : Nat) : ProcessStats :=
  (chunks batch_size queries).foldl (processBatch env)
    ⟨queries.length, 0, 0, 0, [], []⟩

/-! ## Concrete inputs used by the witnesses -/

/-- The invalid-error payload of the C1 scenario: contains the error
indicator, is far below 2000 bytes, and has no running marker. -/
def c1Payload : String := "\x7b\"error\": \"quota exceeded\"\x7d"

/-- Environment of the C1 scenario: retrieval always yields the
invalid-error payload; saves and flag updates succeed. -/
def c1Env : Env2 :=
  ⟨fun _ => .ok ⟨c1Payload, true⟩, fun _ => false, fun _ => true⟩

/-- Store of the C1 scenario: one unprocessed snapshot, no responses. -/
def c1Store : Store2 := ⟨[⟨"snap1", false⟩], []⟩

/-- A valid, truthy payload for the C3 scenario. -/
def c3Payload : PyObj := ⟨"[\x7b\"title\": \"ok\"\x7d]", true⟩

/-- Environment of the C3 scenario. -/
def c3Env : Env2 := ⟨fun _ => .ok c3Payload, fun _ => false, fun _ => true⟩

/-- Store of the C3 scenario: the snapshot is unprocessed but its
response row already exists. -/
def c3Store : Store2 := ⟨[⟨"snapA", false⟩], ["snapA"]⟩

/-- Zeroed app-pass counters. -/
def appStats0 : AppStats := ⟨0, 0, 0, 0, 0, 0, 0⟩

/-- The five queries of the C5 scenario. -/
def c5Queries : List String := ["q1", "q2", "q3", "q4", "q5"]

/-- Environment of the C5 scenario: submission succeeds for the first
and third batch and fails for the second; persistence succeeds. -/
def c5Env : SubmitEnv :=
  ⟨fun b =>
      if b = ["q1", "q2"] then some "s1"
      else if b = ["q5"] then some "s3"
      else none,
   fun _ _ => true⟩

/-- An already-extracted response row. -/
def c4RowDone : RespRow := ⟨some "a", some ⟨"x", true⟩, true, false⟩

/-- A not-yet-extracted response row. -/
def c4RowTodo : RespRow := ⟨some "b", some ⟨"y", true⟩, false, false⟩

/-- Store of the C4 witness: one extracted and one unextracted row. -/
def c4Store : Store3 := ⟨[c4RowDone, c4RowTodo], []⟩

/-- Zeroed stage-3 counters. -/
def stage3Stats0 : Stage3Stats := ⟨0, 0, 0, 0, 0⟩

/-- A well-behaved stage-3 environment: flag updates succeed and email
inserts never fail for non-duplicate reasons. -/
def c9EnvGood : Env3 := ⟨fun _ => true, fun _ => false⟩

/-- A stage-3 environment whose flag update fails persistently. -/
def c9EnvBad : Env3 := ⟨fun _ => false, fun _ => false⟩

/-- Store of the C9 witness: a single unextracted well-formed row. -/
def c9Store : Store3 := ⟨[⟨some "r1", some ⟨"[1]", true⟩, false, false⟩], []⟩

/-- An error-envelope payload padded to `n + 13` UTF-8 bytes. -/
def errPayloadGen (n : Nat) : String :=
  "\x7b\"error\": \"" ++ String.mk (List.replicate n 'a') ++ "\"\x7d"

/-- A payload whose serialization contains the error indicator at
exactly 1999 UTF-8 bytes. -/
def errPayload1999 : String := errPayloadGen 1986

/-- A payload whose serialization contains the error indicator at
exactly 2000 UTF-8 bytes. -/
def errPayload2000 : String := errPayloadGen 1987

/-! ## Helper lemmas on substrings and the validator -/

theorem mem_of_listHasSub {pat l : List Char} (h : listHasSub pat l = true) :
    ∀ c ∈ pat, c ∈ l := by
  induction l with
  | nil =>
    intro c hc
    simp [listHasSub, List.isEmpty_iff] at h
    simp [h] at hc
  | cons a as ih =>
    intro c hc
    rcases Bool.or_eq_true _ _ |>.mp h with hp | hs
    · rcases List.isPrefixOf_iff_prefix.mp hp with ⟨t, ht⟩
      rw [← ht]
      exact List.mem_append_left t hc
    · exact List.mem_cons_of_mem a (ih hs c hc)

theorem digitChar_isDigit (m : Nat) (h : m < 10) :
    (Nat.digitChar m).isDigit = true := by
  interval_cases m <;> decide

theorem toDigitsCore_digits :
    ∀ (f n : Nat) (ds : List Char), (∀ c ∈ ds, c.isDigit = true) →
      ∀ c ∈ Nat.toDigitsCore 10 f n ds, c.isDigit = true := by
  intro f
  induction f with
  | zero => intro n ds hds; simpa [Nat.toDigitsCore] using hds
  | succ f ih =>
    intro n ds hds c hc
    have hd : (Nat.digitChar (n % 10)).isDigit = true :=
      digitChar_isDigit _ (Nat.mod_lt _ (by omega))
    have hcons : ∀ x ∈ Nat.digitChar (n % 10) :: ds, x.isDigit = true := by
      intro x hx
      rcases List.mem_cons.mp hx with h | h
      · simpa [h] using hd
      · exact hds x h
    simp only [Nat.toDigitsCore] at hc
    split at hc
    · exact hcons c hc
    · exact ih _ _ hcons c hc

theorem repr_digits (n : Nat) : ∀ c ∈ (Nat.repr n).data, c.isDigit = true := by
  intro c hc
  exact toDigitsCore_digits (n + 1) n [] (by simp) c hc

theorem errSizeReason_no_running (n : Nat) :
    containsSub (errSizeReason n) "running" = false := by
  by_contra h
  have h' : listHasSub "running".data (errSizeReason n).data = true := by
    revert h
    unfold containsSub
    cases listHasSub "running".data (errSizeReason n).data <;> simp
  have hg : 'g' ∈ (errSizeReason n).data :=
    mem_of_listHasSub h' 'g' (by decide)
  have hdata : (errSizeReason n).data =
      "Contains error and size < 2000 bytes (actual: ".data ++
        (Nat.repr n).data ++ ")".data := by
    simp [errSizeReason]
  rw [hdata] at hg
  rcases List.mem_append.mp hg with hg | hg
  · rcases List.mem_append.mp hg with hg | hg
    · revert hg; decide
    · have := repr_digits n 'g' hg
      simp at this
  · revert hg; decide

theorem classify_running {s : String} (h : runningMarker s = true) :
    classify s = .stillProcessing := by
  simp [classify, validate, h, isRunningFlag]
  decide

theorem classify_err_small {s : String} (h1 : runningMarker s = false)
    (h2 : containsErrorCI s = true) (h3 : s.utf8ByteSize < 2000) :
    classify s = .invalidError := by
  simp [classify, validate, h1, h2, h3, isRunningFlag,
    errSizeReason_no_running]

theorem classify_err_big {s : String} (h1 : runningMarker s = false)
    (h2 : containsErrorCI s = true) (h3 : 2000 ≤ s.utf8ByteSize) :
    classify s = .valid := by
  simp [classify, validate, h1, h2, Nat.not_lt.mpr h3]

theorem classify_clean {s : String} (h1 : runningMarker s = false)
    (h2 : containsErrorCI s = false) : classify s = .valid := by
  simp [classify, validate, h1, h2]


theorem mkData (l : List Char) : (String.mk l).data = l := rfl

theorem listHasSub_append_of_left {pat l1 : List Char} (l2 : List Char)
    (h : listHasSub pat l1 = true) : listHasSub pat (l1 ++ l2) = true := by
  induction l1 with
  | nil =>
    have hp : pat = [] := by simpa [listHasSub, List.isEmpty_iff] using h
    subst hp
    cases l2 <;> simp [listHasSub, List.isPrefixOf]
  | cons c cs ih =>
    simp only [listHasSub, Bool.or_eq_true] at h
    rcases h with hp | hs
    · rcases List.isPrefixOf_iff_prefix.mp hp with ⟨t, ht⟩
      have hpre : pat <+: (c :: cs ++ l2) :=
        ⟨t ++ l2, by rw [← List.append_assoc, ht]⟩
      simp only [List.cons_append, listHasSub, Bool.or_eq_true]
      exact Or.inl (List.isPrefixOf_iff_prefix.mpr hpre)
    · simp only [List.cons_append, listHasSub, Bool.or_eq_true]
      exact Or.inr (ih hs)

theorem utf8Go_append (l1 l2 : List Char) :
    String.utf8ByteSize.go (l1 ++ l2) =
      String.utf8ByteSize.go l1 + String.utf8ByteSize.go l2 := by
  induction l1 with
  | nil => simp [String.utf8ByteSize.go]
  | cons c cs ih =>
    have h1 : String.utf8ByteSize.go (c :: (cs ++ l2)) =
        String.utf8ByteSize.go (cs ++ l2) + c.utf8Size := rfl
    have h2 : String.utf8ByteSize.go (c :: cs) =
        String.utf8ByteSize.go cs + c.utf8Size := rfl
    rw [List.cons_append, h1, h2, ih]
    omega

theorem utf8Go_replicate (n : Nat) (c : Char) :
    String.utf8ByteSize.go (List.replicate n c) = n * c.utf8Size := by
  induction n with
  | zero => simp [String.utf8ByteSize.go]
  | succ n ih =>
    have h1 : String.utf8ByteSize.go (c :: List.replicate n c) =
        String.utf8ByteSize.go (List.replicate n c) + c.utf8Size := rfl
    rw [List.replicate_succ, h1, ih, Nat.succ_mul]

theorem utf8ByteSize_eq (s : String) :
    s.utf8ByteSize = String.utf8ByteSize.go s.data := by
  cases s
  rfl

theorem errPayloadGen_data (n : Nat) :
    (errPayloadGen n).data =
      "\x7b\"error\": \"".data ++ (List.replicate n 'a' ++ "\"\x7d".data) := by
  simp [errPayloadGen, mkData]

theorem errPayloadGen_size (n : Nat) :
    (errPayloadGen n).utf8ByteSize = n + 13 := by
  rw [utf8ByteSize_eq, errPayloadGen_data, utf8Go_append, utf8Go_append,
    utf8Go_replicate]
  have h1 : String.utf8ByteSize.go "\x7b\"error\": \"".data = 11 := by decide
  have h2 : String.utf8ByteSize.go "\"\x7d".data = 2 := by decide
  have h3 : Char.utf8Size 'a' = 1 := by decide
  rw [h1, h2, h3]
  omega

theorem errPayloadGen_no_t (n : Nat) : 't' ∉ (errPayloadGen n).data := by
  intro hmem
  rw [errPayloadGen_data] at hmem
  rcases List.mem_append.mp hmem with h | h
  · revert h; decide
  · rcases List.mem_append.mp h with h | h
    · exact absurd (List.eq_of_mem_replicate h) (by decide)
    · revert h; decide

theorem errPayloadGen_marker (n : Nat) :
    runningMarker (errPayloadGen n) = false := by
  have h1 : containsSub (errPayloadGen n) "\"status\":\"running\"" = false := by
    by_contra h
    rw [Bool.not_eq_false] at h
    exact errPayloadGen_no_t n
      (mem_of_listHasSub (h : listHasSub _ _ = true) 't' (by decide))
  have h2 : containsSub (errPayloadGen n) "\"status\": \"running\"" = false := by
    by_contra h
    rw [Bool.not_eq_false] at h
    exact errPayloadGen_no_t n
      (mem_of_listHasSub (h : listHasSub _ _ = true) 't' (by decide))
  simp [runningMarker, h1, h2]

theorem errPayloadGen_err (n : Nat) :
    containsErrorCI (errPayloadGen n) = true := by
  show listHasSub "error".data (lowerStr (errPayloadGen n)).data = true
  have hdata : (lowerStr (errPayloadGen n)).data =
      (lowerStr "\x7b\"error\": \"").data ++
        ((List.replicate n 'a').map Char.toLower ++
          "\"\x7d".data.map Char.toLower) := by
    simp [lowerStr, mkData, errPayloadGen_data]
  rw [hdata]
  exact listHasSub_append_of_left _ (by decide)

/-! ## C2 — validator rule order and the 2000-byte boundary -/

/-- C2: classification rules are evaluated in order — a payload with
the running-status marker classifies `still-processing` regardless of
error content; otherwise an error-indicating payload classifies
`invalid-error` exactly when its UTF-8 byte length is below 2000
(below the threshold `invalid-error`, at or above it `valid`);
otherwise it classifies `valid`. -/
theorem c2_validator_rule_order_and_boundary (s : String) :
    (runningMarker s = true → classify s = .stillProcessing) ∧
    (runningMarker s = false → containsErrorCI s = true →
      (s.utf8ByteSize < 2000 → classify s = .invalidError) ∧
      (2000 ≤ s.utf8ByteSize → classify s = .valid)) ∧
    (runningMarker s = false → containsErrorCI s = false →
      classify s = .valid) := by
  refine ⟨fun h => classify_running h, fun h1 h2 => ⟨?_, ?_⟩, fun h1 h2 => ?_⟩
  · exact fun h3 => classify_err_small h1 h2 h3
  · exact fun h3 => classify_err_big h1 h2 h3
  · exact classify_clean h1 h2

set_option maxRecDepth 16384

/-- Witness for C2 at concrete payloads: a running payload that also
mentions errors, error payloads of exactly 1999 and exactly 2000
bytes, and a clean payload. -/
theorem c2_validator_rule_order_and_boundary_witness :
    classify "\x7b\"status\": \"running\", \"error\": 1\x7d" = .stillProcessing ∧
    classify errPayload1999 = .invalidError ∧
    classify errPayload2000 = .valid ∧
    classify "\x7b\"items\": []\x7d" = .valid := by
  refine ⟨?_, ?_, ?_, ?_⟩
  · exact (c2_validator_rule_order_and_boundary _).1 (by decide)
  · exact ((c2_validator_rule_order_and_boundary errPayload1999).2.1
      (errPayloadGen_marker 1986) (errPayloadGen_err 1986)).1
      (by show (errPayloadGen 1986).utf8ByteSize < 2000
          rw [errPayloadGen_size]
          omega)
  · exact ((c2_validator_rule_order_and_boundary errPayload2000).2.1
      (errPayloadGen_marker 1987) (errPayloadGen_err 1987)).2
      (by show 2000 ≤ (errPayloadGen 1987).utf8ByteSize
          rw [errPayloadGen_size])
  · exact (c2_validator_rule_order_and_boundary _).2.2 (by decide) (by decide)

/-! ## C10 — the error indicator is a raw substring test -/

/-- C10: the error indicator is a case-insensitive substring test for
"error" over the whole serialized payload, so any payload without a
running marker whose serialization mentions "error" anywhere — also
inside ordinary data values — classifies `invalid-error` whenever it is
under 2000 bytes. -/
theorem c10_error_substring_over_data (s : String) :
    containsErrorCI s = containsSub (lowerStr s) "error" ∧
    (runningMarker s = false → containsErrorCI s = true →
      s.utf8ByteSize < 2000 → classify s = .invalidError) := by
  exact ⟨rfl, fun h1 h2 h3 => classify_err_small h1 h2 h3⟩

/-- Witness for C10: a payload that is not an error envelope — the
characters "Error" only occur inside an email-address data value — is
nevertheless classified `invalid-error`. -/
theorem c10_error_substring_over_data_witness :
    containsErrorCI "[\x7b\"email\": \"ops-Error@example.com\"\x7d]" = true ∧
    classify "[\x7b\"email\": \"ops-Error@example.com\"\x7d]" = .invalidError := by
  refine ⟨by decide, ?_⟩
  exact (c10_error_substring_over_data _).2 (by decide) (by decide) (by decide)

/-! ## C1 — which passes respect the processed-flag invariant -/

/-- C1 (failing part, `worker.process_stage2`): the worker's retrieval
pass only skips `still-processing` payloads (`not is_valid and
is_running`), so an `invalid-error` payload falls through to
persistence: the response is saved and the snapshot is marked
`processed = true` while its payload is classified `invalid-error`,
contradicting the spec invariant.  Evaluated at the concrete failing
input. -/
theorem c1_worker_marks_processed_on_invalid_error :
    classify c1Payload = .invalidError ∧
    process_stage2 c1Env (stage2Items c1Store) c1Store =
      (⟨[⟨"snap1", true⟩], ["snap1"]⟩, ⟨1, 1, 0, 0⟩) := by
  exact ⟨by decide, by decide⟩

/-! ## C3 — duplicate-safe retrieval -/

theorem classify_valid_iff (s : String) :
    classify s = .valid ↔ (validate s).1 = true := by
  unfold classify
  cases h : (validate s).1
  · simp only [h, Bool.false_eq_true, if_false]
    split <;> simp
  · simp [h]

theorem mark_as_processed_resps (env : Env2) (store : Store2) (id : String) :
    (mark_as_processed env store id).1.resps = store.resps := by
  unfold mark_as_processed
  split <;> rfl

theorem snapProcessed_mark (env : Env2) (store : Store2) (id : String)
    (hm : env.markOk id = true) :
    snapProcessed (mark_as_processed env store id).1 id = true := by
  have hall : ∀ r ∈ store.snaps.map
      (fun r => if r.snapshot_id = id then { r with processed := true } else r),
      (!(r.snapshot_id == id) || r.processed) = true := by
    intro r hr
    rcases List.mem_map.mp hr with ⟨r0, _, rfl⟩
    by_cases hid : r0.snapshot_id = id
    · simp [hid]
    · simp [hid]
  simp only [mark_as_processed, hm, if_true, snapProcessed]
  exact List.all_eq_true.mpr hall

theorem appStep_duplicate (env : Env2) (store : Store2) (stats : AppStats)
    (id : String) (d : PyObj) (hf : env.fetch id = .ok d)
    (hv : classify d.dumped = .valid) (ht : d.truthy = true)
    (hr : store.resps.contains id = true) :
    appStep env (store, stats) (.item id) =
      ((mark_as_processed env store id).1,
       { stats with duplicate_snapshots := stats.duplicate_snapshots + 1 }) := by
  have hvalid : (validate d.dumped).1 = true := (classify_valid_iff _).mp hv
  have hmem : id ∈ store.resps := by simpa using hr
  simp only [appStep, hf, get_snapshot_data]
  simp [hvalid, ht, save_response, hmem]

/-- C3: invoking the per-snapshot retrieval step twice on a snapshot
whose response row already exists leaves `processed = true` after both
calls, creates no new response rows, and each call increments the
duplicate counter while the failure counter stays unchanged. -/
theorem c3_duplicate_retrieval_idempotent (env : Env2) (store : Store2)
    (stats : AppStats) (id : String) (d : PyObj)
    (store1 store2 : Store2) (stats1 stats2 : AppStats)
    (hf : env.fetch id = .ok d) (hv : classify d.dumped = .valid)
    (ht : d.truthy = true) (hr : store.resps.contains id = true)
    (hm : env.markOk id = true)
    (h1 : appStep env (store, stats) (.item id) = (store1, stats1))
    (h2 : appStep env (store1, stats1) (.item id) = (store2, stats2)) :
    snapProcessed store1 id = true ∧ snapProcessed store2 id = true ∧
    store1.resps = store.resps ∧ store2.resps = store.resps ∧
    stats1.duplicate_snapshots = stats.duplicate_snapshots + 1 ∧
    stats2.duplicate_snapshots = stats.duplicate_snapshots + 2 ∧
    stats1.failed = stats.failed ∧ stats2.failed = stats.failed := by
  rw [appStep_duplicate env store stats id d hf hv ht hr] at h1
  injection h1 with hs1 hst1
  have hresps1 : store1.resps = store.resps := by
    rw [← hs1]; exact mark_as_processed_resps env store id
  have hr1 : store1.resps.contains id = true := by rw [hresps1]; exact hr
  rw [appStep_duplicate env store1 stats1 id d hf hv ht hr1] at h2
  injection h2 with hs2 hst2
  have hresps2 : store2.resps = store.resps := by
    rw [← hs2, mark_as_processed_resps env store1 id]; exact hresps1
  refine ⟨?_, ?_, hresps1, hresps2, ?_, ?_, ?_, ?_⟩
  · rw [← hs1]; exact snapProcessed_mark env store id hm
  · rw [← hs2]; exact snapProcessed_mark env store1 id hm
  · rw [← hst1]
  · rw [← hst2, ← hst1]
  · rw [← hst1]
  · rw [← hst2, ← hst1]

/-- Witness for C3 at a concrete store whose response row already
exists. -/
theorem c3_duplicate_retrieval_idempotent_witness :
    snapProcessed ⟨[⟨"snapA", true⟩], ["snapA"]⟩ "snapA" = true ∧
    snapProcessed ⟨[⟨"snapA", true⟩], ["snapA"]⟩ "snapA" = true ∧
    (Store2.mk [⟨"snapA", true⟩] ["snapA"]).resps = c3Store.resps ∧
    (Store2.mk [⟨"snapA", true⟩] ["snapA"]).resps = c3Store.resps ∧
    (AppStats.mk 0 0 0 0 0 1 0).duplicate_snapshots =
      appStats0.duplicate_snapshots + 1 ∧
    (AppStats.mk 0 0 0 0 0 2 0).duplicate_snapshots =
      appStats0.duplicate_snapshots + 2 ∧
    (AppStats.mk 0 0 0 0 0 1 0).failed = appStats0.failed ∧
    (AppStats.mk 0 0 0 0 0 2 0).failed = appStats0.failed :=
  c3_duplicate_retrieval_idempotent c3Env c3Store appStats0 "snapA" c3Payload
    ⟨[⟨"snapA", true⟩], ["snapA"]⟩ ⟨[⟨"snapA", true⟩], ["snapA"]⟩
    ⟨0, 0, 0, 0, 0, 1, 0⟩ ⟨0, 0, 0, 0, 0, 2, 0⟩
    rfl (by decide) rfl rfl rfl (by decide) (by decide)

/-! ## C4 — extracted rows never re-scanned -/

theorem processEmails_resps (env : Env3) :
    ∀ (es : List String) (acc : Store3 × Stage3Stats),
      (processEmails env acc es).1.resps = acc.1.resps := by
  intro es
  induction es with
  | nil => intro acc; rfl
  | cons e es ih =>
    intro acc
    simp only [processEmails]
    rw [ih]
    unfold save_email
    split
    · rfl
    · split <;> rfl

theorem idExtracted_resps_congr {s1 s2 : Store3} {id : String}
    (h : s2.resps = s1.resps) (h' : idExtracted s1 id) : idExtracted s2 id := by
  intro r hr
  rw [h] at hr
  exact h' r hr

theorem idExtracted_mark (env : Env3) (store : Store3) (id id' : String)
    (h : idExtracted store id) :
    idExtracted (mark_email_extracted env store id').1 id := by
  unfold mark_email_extracted
  split
  · intro r hr hid
    simp only at hr
    rcases List.mem_map.mp hr with ⟨r0, hr0, rfl⟩
    by_cases h0 : r0.snapshot_id = some id'
    · simp [h0]
    · simp only [h0, if_false] at hid ⊢
      exact h r0 hr0 hid
  · exact h

theorem idExtracted_processRow (env : Env3) (acc : Store3 × Stage3Stats)
    (row : RespRow) (id : String) (h : idExtracted acc.1 id) :
    idExtracted (processRow env acc row).1 id := by
  rcases row with ⟨sid, resp, ex, rexn⟩
  rcases sid with _ | id' <;> rcases resp with _ | d
  · exact h
  · exact h
  · exact h
  · simp only [processRow]
    split
    · exact h
    · exact idExtracted_mark env _ id id'
        (idExtracted_resps_congr (processEmails_resps env _ _) h)

theorem idExtracted_processPage (env : Env3) (rows : List RespRow) :
    ∀ (acc : Store3 × Stage3Stats) (id : String), idExtracted acc.1 id →
      idExtracted (processPage env acc rows).1 id := by
  induction rows with
  | nil => intro acc id h; exact h
  | cons r rs ih =>
    intro acc id h
    exact ih (processRow env acc r) id (idExtracted_processRow env acc r id h)

/-- C4: every fetched extraction page is re-queried from offset zero and
filtered on `extracted = false`, holds at most 20 rows, an extraction
pass never unmarks a row, and a row whose id is marked extracted never
appears in a page. -/
theorem c4_extracted_rows_drop_out :
    (∀ (store : Store3), ∀ r ∈ get_unextracted_responses store 20 0,
      r.extracted = false) ∧
    (∀ store : Store3, (get_unextracted_responses store 20 0).length ≤ 20) ∧
    (∀ (env : Env3) (acc : Store3 × Stage3Stats) (rows : List RespRow)
      (id : String), idExtracted acc.1 id →
      idExtracted (processPage env acc rows).1 id) ∧
    (∀ (store : Store3) (id : String), idExtracted store id →
      ∀ r ∈ get_unextracted_responses store 20 0, r.snapshot_id ≠ some id) := by
  have hmem : ∀ (store : Store3), ∀ r ∈ get_unextracted_responses store 20 0,
      r ∈ store.resps ∧ r.extracted = false := by
    intro store r hr
    unfold get_unextracted_responses at hr
    rw [List.drop_zero] at hr
    have hf := List.take_subset _ _ hr
    have := List.mem_filter.mp hf
    exact ⟨this.1, by simpa using this.2⟩
  refine ⟨fun store r hr => (hmem store r hr).2, ?_, ?_, ?_⟩
  · intro store
    unfold get_unextracted_responses
    exact List.length_take_le _ _
  · intro env acc rows id h
    exact idExtracted_processPage env rows acc id h
  · intro store id h r hr heq
    rcases hmem store r hr with ⟨hin, hex⟩
    have := h r hin heq
    rw [this] at hex
    exact Bool.true_eq_false.mp hex

/-- Witness for C4: a store with one extracted and one unextracted row —
the fetched page consists of the unextracted row only, and it is not
the extracted id. -/
theorem c4_extracted_rows_drop_out_witness :
    c4RowTodo.extracted = false ∧
    c4RowTodo.snapshot_id ≠ some "a" ∧
    idExtracted (processPage c9EnvGood (c4Store, stage3Stats0) [c4RowTodo]).1
      "a" :=
  ⟨c4_extracted_rows_drop_out.1 c4Store c4RowTodo (by decide),
   c4_extracted_rows_drop_out.2.2.2 c4Store "a" (by decide) c4RowTodo
     (by decide),
   c4_extracted_rows_drop_out.2.2.1 c9EnvGood (c4Store, stage3Stats0)
     [c4RowTodo] "a" (by decide)⟩

/-! ## C5 — batch partitioning and submission counts -/

theorem chunksFuel_join (B : Nat) :
    ∀ (f : Nat) (l : List String), l.length ≤ f → 0 < B →
      (chunksFuel B f l).flatten = l := by
  intro f
  induction f with
  | zero =>
    intro l hl _
    have hnil : l = [] := List.eq_nil_of_length_eq_zero (Nat.le_zero.mp hl)
    subst hnil
    rfl
  | succ f ih =>
    intro l hl hB
    cases l with
    | nil => rfl
    | cons q qs =>
      show (List.take B (q :: qs) ::
          chunksFuel B f (List.drop B (q :: qs))).flatten = q :: qs
      have hdl : (List.drop B (q :: qs)).length ≤ f := by
        rw [List.length_drop]
        simp only [List.length_cons] at hl ⊢
        omega
      rw [List.flatten_cons, ih _ hdl hB, List.take_append_drop]

theorem chunksFuel_mem (B : Nat) :
    ∀ (f : Nat) (l : List String), l.length ≤ f → 0 < B →
      ∀ c ∈ chunksFuel B f l, c ≠ [] ∧ c.length ≤ B := by
  intro f
  induction f with
  | zero =>
    intro l hl _ c hc
    have hnil : l = [] := List.eq_nil_of_length_eq_zero (Nat.le_zero.mp hl)
    subst hnil
    simp [chunksFuel] at hc
  | succ f ih =>
    intro l hl hB c hc
    cases l with
    | nil => simp [chunksFuel] at hc
    | cons q qs =>
      rcases List.mem_cons.mp hc with rfl | hc'
      · constructor
        · intro hnil
          rcases List.take_eq_nil_iff.mp hnil with h | h
          · omega
          · exact List.cons_ne_nil q qs h
        · exact List.length_take_le _ _
      · have hdl : (List.drop B (q :: qs)).length ≤ f := by
          rw [List.length_drop]
          simp only [List.length_cons] at hl ⊢
          omega
        exact ih _ hdl hB c hc'

theorem chunksFuel_length (B : Nat) :
    ∀ (f : Nat) (l : List String), l.length ≤ f → 0 < B →
      (chunksFuel B f l).length = (l.length + B - 1) / B := by
  intro f
  induction f with
  | zero =>
    intro l hl hB
    have hnil : l = [] := List.eq_nil_of_length_eq_zero (Nat.le_zero.mp hl)
    subst hnil
    show ([] : List (List String)).length = (0 + B - 1) / B
    rw [List.length_nil, Nat.div_eq_of_lt (by omega : 0 + B - 1 < B)]
  | succ f ih =>
    intro l hl hB
    cases l with
    | nil =>
      show ([] : List (List String)).length = (0 + B - 1) / B
      rw [List.length_nil, Nat.div_eq_of_lt (by omega : 0 + B - 1 < B)]
    | cons q qs =>
      show (List.take B (q :: qs) :: chunksFuel B f (List.drop B (q :: qs))).length
          = ((q :: qs).length + B - 1) / B
      have hlen : (1 ≤ (q :: qs).length) := by simp
      have hdl : (List.drop B (q :: qs)).length ≤ f := by
        rw [List.length_drop]
        simp only [List.length_cons] at hl ⊢
        omega
      rw [List.length_cons, ih _ hdl hB, List.length_drop]
      have h1 : (q :: qs).length + B - 1 = ((q :: qs).length - 1) + B := by omega
      rw [h1, Nat.add_div_right _ hB]
      by_cases hc : (q :: qs).length ≤ B
      · have h2 : (q :: qs).length - B = 0 := by omega
        rw [h2]
        rw [Nat.div_eq_of_lt (by omega : 0 + B - 1 < B),
          Nat.div_eq_of_lt (by omega : (q :: qs).length - 1 < B)]
      · have h2 : (q :: qs).length - B + B - 1 = ((q :: qs).length - B - 1) + B := by
          omega
        have h3 : (q :: qs).length - 1 = ((q :: qs).length - B - 1) + B := by omega
        rw [h2, h3, Nat.add_div_right _ hB]

theorem processBatch_counts (env : SubmitEnv) (st : ProcessStats)
    (b : List String) :
    (processBatch env st b).total_batches = st.total_batches + 1 ∧
    (processBatch env st b).successful_snapshots +
      (processBatch env st b).failed_batches =
      st.successful_snapshots + st.failed_batches + 1 := by
  unfold processBatch
  cases h : env.send_request b with
  | none => refine ⟨rfl, ?_⟩; simp; omega
  | some sid =>
    by_cases hs : env.save_snapshot sid b = true
    · refine ⟨?_, ?_⟩ <;> simp [hs] <;> omega
    · refine ⟨?_, ?_⟩ <;> simp [hs] <;> omega

theorem foldl_batches_counts (env : SubmitEnv) :
    ∀ (bs : List (List String)) (st : ProcessStats),
      ((bs.foldl (processBatch env) st).total_batches =
        st.total_batches + bs.length) ∧
      ((bs.foldl (processBatch env) st).successful_snapshots +
        (bs.foldl (processBatch env) st).failed_batches =
        st.successful_snapshots + st.failed_batches + bs.length) := by
  intro bs
  induction bs with
  | nil => intro st; simp
  | cons b bs ih =>
    intro st
    rcases processBatch_counts env st b with ⟨h1, h2⟩
    rcases ih (processBatch env st b) with ⟨h3, h4⟩
    simp only [List.foldl_cons, List.length_cons]
    omega

/-- C5: submission partitions the query list into `ceil(n/B)`
consecutive non-empty batches of at most `B`, returns that count as
`total_batches`, counts every batch as exactly one success or one
failure, and in the 5-queries/size-2 scenario with the second batch
failing yields sizes [2,2,1], 2 successes, 1 failed batch, and a
snapshot mapping free of the failed batch's queries. -/
theorem c5_batch_partition_and_counts (env : SubmitEnv)
    (queries : List String) (B : Nat) (hB : 0 < B) :
    (chunks B queries).flatten = queries ∧
    (∀ c ∈ chunks B queries, c ≠ [] ∧ c.length ≤ B) ∧
    (chunks B queries).length = (queries.length + B - 1) / B ∧
    (process_queries env queries B).total_batches = (chunks B queries).length ∧
    (process_queries env queries B).successful_snapshots +
      (process_queries env queries B).failed_batches =
      (process_queries env queries B).total_batches ∧
    (chunks 2 c5Queries).map List.length = [2, 2, 1] ∧
    (process_queries c5Env c5Queries 2).successful_snapshots = 2 ∧
    (process_queries c5Env c5Queries 2).failed_batches = 1 ∧
    (process_queries c5Env c5Queries 2).total_batches = 3 ∧
    (process_queries c5Env c5Queries 2).snapshot_query_map =
      [("s1", ["q1", "q2"]), ("s3", ["q5"])] ∧
    (∀ p ∈ (process_queries c5Env c5Queries 2).snapshot_query_map,
      "q3" ∉ p.2 ∧ "q4" ∉ p.2) := by
  rcases foldl_batches_counts env (chunks B queries) ⟨queries.length, 0, 0, 0, [], []⟩
    with ⟨ht, hs⟩
  refine ⟨chunksFuel_join B _ _ le_rfl hB, chunksFuel_mem B _ _ le_rfl hB,
    chunksFuel_length B _ _ le_rfl hB, ?_, ?_, by decide, by decide, by decide,
    by decide, by decide, by decide⟩
  · show (List.foldl (processBatch env) ⟨queries.length, 0, 0, 0, [], []⟩
      (chunks B queries)).total_batches = (chunks B queries).length
    rw [ht]
    simp
  · show (List.foldl (processBatch env) ⟨queries.length, 0, 0, 0, [], []⟩
        (chunks B queries)).successful_snapshots +
      (List.foldl (processBatch env) ⟨queries.length, 0, 0, 0, [], []⟩
        (chunks B queries)).failed_batches =
      (List.foldl (processBatch env) ⟨queries.length, 0, 0, 0, [], []⟩
        (chunks B queries)).total_batches
    rw [hs, ht]
    simp

/-- Witness for C5 at the concrete 5-queries/size-2 scenario. -/
theorem c5_batch_partition_and_counts_witness :
    (chunks 2 c5Queries).flatten = c5Queries ∧
    (process_queries c5Env c5Queries 2).successful_snapshots +
      (process_queries c5Env c5Queries 2).failed_batches =
      (process_queries c5Env c5Queries 2).total_batches :=
  ⟨(c5_batch_partition_and_counts c5Env c5Queries 2 (by decide)).1,
   (c5_batch_partition_and_counts c5Env c5Queries 2 (by decide)).2.2.2.2.1⟩

/-! ## C6 — deduplication is pure with exact count identities -/

theorem filter_length_partition {α : Type} (p : α → Bool) (l : List α) :
    (l.filter p).length + (l.filter fun a => !(p a)).length = l.length := by
  induction l with
  | nil => rfl
  | cons a as ih =>
    cases h : p a <;> simp [List.filter_cons, h] <;> omega

theorem uniqueAux_sublist : ∀ (l seen : List String),
    (uniqueAux seen l).Sublist l := by
  intro l
  induction l with
  | nil => intro seen; simp [uniqueAux]
  | cons q rest ih =>
    intro seen
    simp only [uniqueAux]
    split
    · exact List.Sublist.cons₂ q (ih _)
    · exact List.Sublist.cons q (ih seen)

theorem uniqueAux_keys (l : List String) : ∀ seen : List String,
    ((uniqueAux seen l).map normQ).Nodup ∧
    (∀ k ∈ (uniqueAux seen l).map normQ, k ∉ seen) := by
  induction l with
  | nil => intro seen; exact ⟨List.nodup_nil, by simp [uniqueAux]⟩
  | cons q rest ih =>
    intro seen
    simp only [uniqueAux]
    split
    case isTrue h =>
      rcases ih (normQ q :: seen) with ⟨hnd, hnin⟩
      refine ⟨?_, ?_⟩
      · simp only [List.map_cons]
        exact List.nodup_cons.mpr
          ⟨fun hmem => (hnin _ hmem) (List.mem_cons_self _ _), hnd⟩
      · intro k hk
        simp only [List.map_cons, List.mem_cons] at hk
        rcases hk with rfl | hk
        · exact h.2
        · intro hks
          exact (hnin k hk) (List.mem_cons_of_mem _ hks)
    case isFalse h => exact ih seen

theorem uniqueAux_eq_spec (l : List String) : ∀ (seen earlier : List String),
    (∀ k, k ≠ "" → (k ∈ seen ↔ ∃ p ∈ earlier, normQ p = k)) →
    uniqueAux seen l = filterUniqueSpec earlier l := by
  induction l with
  | nil => intro seen earlier _; rfl
  | cons q rest ih =>
    intro seen earlier hinv
    have hcond : (normQ q ≠ "" ∧ normQ q ∉ seen) ↔
        (normQ q ≠ "" ∧ ∀ p ∈ earlier, normQ p ≠ normQ q) := by
      constructor
      · rintro ⟨hne, hns⟩
        refine ⟨hne, fun p hp hpk => hns (((hinv _ hne).mpr ⟨p, hp, hpk⟩))⟩
      · rintro ⟨hne, hall⟩
        refine ⟨hne, fun hns => ?_⟩
        rcases (hinv _ hne).mp hns with ⟨p, hp, hpk⟩
        exact hall p hp hpk
    simp only [uniqueAux, filterUniqueSpec]
    by_cases h : normQ q ≠ "" ∧ normQ q ∉ seen
    · rw [if_pos h, if_pos (hcond.mp h)]
      congr 1
      apply ih
      intro k hk
      constructor
      · intro hks
        rcases List.mem_cons.mp hks with rfl | hks
        · exact ⟨q, List.mem_append_right _ (List.mem_singleton.mpr rfl), rfl⟩
        · rcases (hinv k hk).mp hks with ⟨p, hp, hpk⟩
          exact ⟨p, List.mem_append_left _ hp, hpk⟩
      · rintro ⟨p, hp, hpk⟩
        rcases List.mem_append.mp hp with hp | hp
        · exact List.mem_cons_of_mem _ ((hinv k hk).mpr ⟨p, hp, hpk⟩)
        · have hpq : p = q := List.mem_singleton.mp hp
          subst hpq
          rw [← hpk]
          exact List.mem_cons_self _ _
    · rw [if_neg h, if_neg (fun hh => h (hcond.mpr hh))]
      apply ih
      intro k hk
      constructor
      · intro hks
        rcases (hinv k hk).mp hks with ⟨p, hp, hpk⟩
        exact ⟨p, List.mem_append_left _ hp, hpk⟩
      · rintro ⟨p, hp, hpk⟩
        rcases List.mem_append.mp hp with hp | hp
        · exact (hinv k hk).mpr ⟨p, hp, hpk⟩
        · have hpq : p = q := List.mem_singleton.mp hp
          subst hpq
          rcases not_and_or.mp h with hne | hns
          · have hq0 : normQ p = "" := not_not.mp hne
            rw [hq0] at hpk
            exact absurd hpk.symm hk
          · rw [← hpk]
            exact not_not.mp hns

/-- C6: `filter_queries` is a pure function of its two inputs, its
counters satisfy `new_count + existing_count = unique_in_csv` and
`duplicates_in_csv = total_uploaded - unique_in_csv`, and its
deduplication keeps the first occurrence of each normalized
(lower-cased, trimmed) key with order and casing preserved. -/
theorem c6_filter_queries_pure_and_counts (u e : List String) :
    filter_queries u e = filter_queries u e ∧
    (filter_queries u e).new_count + (filter_queries u e).existing_count =
      (filter_queries u e).unique_in_csv ∧
    (filter_queries u e).duplicates_in_csv =
      (filter_queries u e).total_uploaded - (filter_queries u e).unique_in_csv ∧
    (uniqueAux [] u).Sublist u ∧
    ((uniqueAux [] u).map normQ).Nodup ∧
    uniqueAux [] u = filterUniqueSpec [] u := by
  refine ⟨rfl, ?_, rfl, uniqueAux_sublist u [], (uniqueAux_keys u []).1, ?_⟩
  · show (List.filter _ (uniqueAux [] u)).length +
      (List.filter _ (uniqueAux [] u)).length = (uniqueAux [] u).length
    have hpred : (fun q => decide (normQ q ∉ e)) =
        (fun q => !(decide (normQ q ∈ e))) := by
      funext q
      exact decide_not
    rw [show (List.filter (fun q => decide (normQ q ∉ e)) (uniqueAux [] u)) =
        (List.filter (fun q => !(decide (normQ q ∈ e))) (uniqueAux [] u)) from
      by rw [hpred]]
    rw [Nat.add_comm]
    exact filter_length_partition _ _
  · exact uniqueAux_eq_spec u [] [] (by simp)

/-! ## C7 — email extraction scenarios and duplicate collapsing -/

/-- C7: extraction of the sample payload yields exactly the one
address; any text with no pattern match yields the empty collection;
and the returned collection never contains duplicates. -/
theorem c7_email_extraction :
    extract_emails_from_text "contact: Jane.Doe+promo@Example.co.uk please" =
      ["Jane.Doe+promo@Example.co.uk"] ∧
    (∀ s : String, findAll emailPattern s = [] →
      extract_emails_from_text s = []) ∧
    (∀ s : String, (extract_emails_from_text s).Nodup) := by
  refine ⟨by decide, ?_, ?_⟩
  · intro s h
    unfold extract_emails_from_text
    rw [h]
    rfl
  · intro s
    exact List.nodup_dedup _

/-- Witness for C7: a pattern-free text extracts to nothing, and a
payload repeating one address extracts without duplicates. -/
theorem c7_email_extraction_witness :
    extract_emails_from_text "hello world" = [] ∧
    (extract_emails_from_text "a@b.cd and a@b.cd").Nodup :=
  ⟨c7_email_extraction.2.1 "hello world" (by decide),
   c7_email_extraction.2.2 "a@b.cd and a@b.cd"⟩

/-! ## C8 — per-item failures are isolated and counted -/

theorem stage2Step_counts (env : Env2) (acc : Store2 × Stage2Stats)
    (it : Stage2Item) :
    (stage2Step env acc it).2.total = acc.2.total ∧
    (stage2Step env acc it).2.successful + (stage2Step env acc it).2.failed +
      (stage2Step env acc it).2.skipped =
      acc.2.successful + acc.2.failed + acc.2.skipped + 1 := by
  rcases acc with ⟨store, stats⟩
  cases it with
  | noId => exact ⟨rfl, by simp [stage2Step] <;> omega⟩
  | exn id => exact ⟨rfl, by simp [stage2Step] <;> omega⟩
  | item id =>
    cases hF : env.fetch id with
    | requestError m =>
      simp only [stage2Step, hF, get_snapshot_data]
      exact ⟨rfl, by simp <;> omega⟩
    | decodeError m =>
      simp only [stage2Step, hF, get_snapshot_data]
      exact ⟨rfl, by simp <;> omega⟩
    | ok d =>
      simp only [stage2Step, hF, get_snapshot_data]
      split
      · exact ⟨rfl, by simp <;> omega⟩
      · split
        · exact ⟨rfl, by simp <;> omega⟩
        · split
          · exact ⟨rfl, by simp <;> omega⟩
          · exact ⟨rfl, by simp <;> omega⟩

theorem process_stage2_fold_counts (env : Env2) :
    ∀ (items : List Stage2Item) (acc : Store2 × Stage2Stats),
      (items.foldl (stage2Step env) acc).2.total = acc.2.total ∧
      (items.foldl (stage2Step env) acc).2.successful +
        (items.foldl (stage2Step env) acc).2.failed +
        (items.foldl (stage2Step env) acc).2.skipped =
        acc.2.successful + acc.2.failed + acc.2.skipped + items.length := by
  intro items
  induction items with
  | nil => intro acc; exact ⟨rfl, by simp⟩
  | cons it its ih =>
    intro acc
    rcases stage2Step_counts env acc it with ⟨h1, h2⟩
    rcases ih (stage2Step env acc it) with ⟨h3, h4⟩
    simp only [List.foldl_cons, List.length_cons]
    omega

theorem processEmails_counts (env : Env3) :
    ∀ (es : List String) (acc : Store3 × Stage3Stats),
      (processEmails env acc es).2.total = acc.2.total ∧
      (processEmails env acc es).2.successful = acc.2.successful ∧
      (processEmails env acc es).2.failed = acc.2.failed := by
  intro es
  induction es with
  | nil => intro acc; exact ⟨rfl, rfl, rfl⟩
  | cons e es ih =>
    intro acc
    simp only [processEmails]
    refine ⟨(ih _).1.trans ?_, (ih _).2.1.trans ?_, (ih _).2.2.trans ?_⟩ <;>
      split <;> first | rfl | (split <;> rfl)

theorem processRow_counts (env : Env3) (acc : Store3 × Stage3Stats)
    (row : RespRow) :
    (processRow env acc row).2.total = acc.2.total + 1 ∧
    (processRow env acc row).2.successful + (processRow env acc row).2.failed =
      acc.2.successful + acc.2.failed + 1 := by
  rcases acc with ⟨store, stats⟩
  rcases row with ⟨sid, resp, ex, rexn⟩
  rcases sid with _ | id <;> rcases resp with _ | d
  · exact ⟨rfl, by simp [processRow] <;> omega⟩
  · exact ⟨rfl, by simp [processRow] <;> omega⟩
  · exact ⟨rfl, by simp [processRow] <;> omega⟩
  · simp only [processRow]
    split
    · exact ⟨rfl, by simp <;> omega⟩
    · rcases processEmails_counts env
        (extract_emails_from_json d) (store, stats) with ⟨h1, h2, h3⟩
      split
      · exact ⟨by simp [h1], by simp [h2, h3] <;> omega⟩
      · exact ⟨by simp [h1], by simp [h2, h3] <;> omega⟩

theorem processPage_counts (env : Env3) :
    ∀ (rows : List RespRow) (acc : Store3 × Stage3Stats),
      (processPage env acc rows).2.total = acc.2.total + rows.length ∧
      (processPage env acc rows).2.successful +
        (processPage env acc rows).2.failed =
        acc.2.successful + acc.2.failed + rows.length := by
  intro rows
  induction rows with
  | nil => intro acc; exact ⟨by simp [processPage], by simp [processPage]⟩
  | cons r rs ih =>
    intro acc
    rcases processRow_counts env acc r with ⟨h1, h2⟩
    rcases ih (processRow env acc r) with ⟨h3, h4⟩
    simp only [processPage, List.foldl_cons, List.length_cons] at h3 h4 ⊢
    omega

/-- C8: both passes fold their per-item handler over the whole fetched
list and always return aggregate statistics — every item contributes
exactly one outcome, the retrieval pass accounts each of its `total`
items as success, failure or skip, the extraction page accounts each
row as success or failure, and an item whose body raises is counted as
one failure with the store untouched while the fold continues. -/
theorem c8_per_item_failure_isolation :
    (∀ (env : Env2) (items : List Stage2Item) (store : Store2),
      (process_stage2 env items store).2.total = items.length ∧
      (process_stage2 env items store).2.successful +
        (process_stage2 env items store).2.failed +
        (process_stage2 env items store).2.skipped = items.length) ∧
    (∀ (env : Env2) (store : Store2) (stats : Stage2Stats) (id : String),
      stage2Step env (store, stats) (.exn id) =
        (store, { stats with failed := stats.failed + 1 })) ∧
    (∀ (env : Env3) (acc : Store3 × Stage3Stats) (rows : List RespRow),
      (processPage env acc rows).2.total = acc.2.total + rows.length ∧
      (processPage env acc rows).2.successful +
        (processPage env acc rows).2.failed =
        acc.2.successful + acc.2.failed + rows.length) ∧
    (∀ (env : Env3) (store : Store3) (stats : Stage3Stats) (id : String)
      (d : PyObj) (b : Bool),
      processRow env (store, stats) ⟨some id, some d, b, true⟩ =
        (store, { stats with failed := stats.failed + 1,
                             total := stats.total + 1 })) := by
  refine ⟨?_, fun env store stats id => rfl,
    fun env acc rows => processPage_counts env rows acc, ?_⟩
  · intro env items store
    rcases process_stage2_fold_counts env items
      (store, ⟨items.length, 0, 0, 0⟩) with ⟨h1, h2⟩
    exact ⟨h1, by simpa using h2⟩
  · intro env store stats id d b
    rfl

/-! ## C9 — extraction-loop termination and the persistent-failure loop -/

theorem unexCount_eq (store : Store3) :
    unexCount store = store.resps.countP (fun r => !r.extracted) := by
  unfold unexCount
  exact (List.countP_eq_length_filter _ _).symm

theorem countP_lt_of_flip {l : List RespRow} {p q : RespRow → Bool}
    (hpq : ∀ x ∈ l, p x = true → q x = true) {r : RespRow} (hr : r ∈ l)
    (hp : p r = false) (hq : q r = true) :
    l.countP p < l.countP q := by
  induction l with
  | nil => cases hr
  | cons a as ih =>
    rw [List.countP_cons, List.countP_cons]
    rcases List.mem_cons.mp hr with rfl | hras
    · rw [hp, hq, if_neg Bool.false_ne_true, if_pos rfl]
      have hle : as.countP p ≤ as.countP q :=
        List.countP_mono_left (fun x hx => hpq x (List.mem_cons_of_mem _ hx))
      omega
    · have hlt : as.countP p < as.countP q :=
        ih (fun x hx => hpq x (List.mem_cons_of_mem _ hx)) hras
      have hif : (if p a = true then 1 else 0) ≤ (if q a = true then 1 else 0) := by
        by_cases hpa : p a = true
        · rw [if_pos hpa, if_pos (hpq a (List.mem_cons_self _ _) hpa)]
        · rw [if_neg hpa]
          split <;> omega
      omega

theorem countP_flip_le (id : String) (l : List RespRow) :
    (l.map fun r =>
        if r.snapshot_id = some id then { r with extracted := true } else r).countP
      (fun r => !r.extracted) ≤ l.countP (fun r => !r.extracted) := by
  rw [List.countP_map]
  apply List.countP_mono_left
  intro x _ h
  by_cases hid : x.snapshot_id = some id
  · simp [Function.comp, hid] at h
  · simpa [Function.comp, hid] using h

theorem countP_flip_lt (id : String) (l : List RespRow) (r : RespRow)
    (hr : r ∈ l) (hid : r.snapshot_id = some id) (hex : r.extracted = false) :
    (l.map fun r =>
        if r.snapshot_id = some id then { r with extracted := true } else r).countP
      (fun r => !r.extracted) < l.countP (fun r => !r.extracted) := by
  rw [List.countP_map]
  apply countP_lt_of_flip (r := r) _ hr
  · simp [Function.comp, hid]
  · simp [hex]
  · intro x _ h
    by_cases hx : x.snapshot_id = some id
    · simp [Function.comp, hx] at h
    · simpa [Function.comp, hx] using h

theorem unexCount_mark_le (env : Env3) (store : Store3) (id : String) :
    unexCount (mark_email_extracted env store id).1 ≤ unexCount store := by
  unfold mark_email_extracted
  split
  · rw [unexCount_eq, unexCount_eq]
    exact countP_flip_le id store.resps
  · exact Nat.le_refl _

theorem unexCount_processRow_le (env : Env3) (acc : Store3 × Stage3Stats)
    (row : RespRow) :
    unexCount (processRow env acc row).1 ≤ unexCount acc.1 := by
  rcases row with ⟨sid, resp, ex, rexn⟩
  rcases sid with _ | id <;> rcases resp with _ | d
  · exact Nat.le_refl _
  · exact Nat.le_refl _
  · exact Nat.le_refl _
  · simp only [processRow]
    split
    · exact Nat.le_refl _
    · have h1 : (processEmails env acc (extract_emails_from_json d)).1.resps =
        acc.1.resps := processEmails_resps env _ _
      have h2 : unexCount (processEmails env acc
          (extract_emails_from_json d)).1 = unexCount acc.1 := by
        rw [unexCount_eq, unexCount_eq, h1]
      calc unexCount (mark_email_extracted env
            (processEmails env acc (extract_emails_from_json d)).1 id).1
          ≤ unexCount (processEmails env acc (extract_emails_from_json d)).1 :=
            unexCount_mark_le env _ id
        _ = unexCount acc.1 := h2

theorem unexCount_processPage_le (env : Env3) :
    ∀ (rows : List RespRow) (acc : Store3 × Stage3Stats),
      unexCount (processPage env acc rows).1 ≤ unexCount acc.1 := by
  intro rows
  induction rows with
  | nil => intro acc; exact Nat.le_refl _
  | cons r rs ih =>
    intro acc
    calc unexCount (processPage env (processRow env acc r) rs).1
        ≤ unexCount (processRow env acc r).1 := ih _
      _ ≤ unexCount acc.1 := unexCount_processRow_le env acc r

theorem unexCount_processRow_lt (env : Env3) (acc : Store3 × Stage3Stats)
    (id : String) (d : PyObj) (ex : Bool)
    (hr : (⟨some id, some d, ex, false⟩ : RespRow) ∈ acc.1.resps)
    (hex : ex = false) (hm : env.markOk id = true) :
    unexCount (processRow env acc ⟨some id, some d, ex, false⟩).1 <
      unexCount acc.1 := by
  simp only [processRow]
  rw [if_neg (by simp)]
  have h1 : (processEmails env acc (extract_emails_from_json d)).1.resps =
      acc.1.resps := processEmails_resps env _ _
  unfold mark_email_extracted
  rw [if_pos hm]
  rw [unexCount_eq, unexCount_eq]
  simp only [h1]
  exact countP_flip_lt id acc.1.resps ⟨some id, some d, ex, false⟩ hr rfl
    (by simpa using hex)

theorem goodStore_resps_congr {env : Env3} {s1 s2 : Store3}
    (h : s2.resps = s1.resps) (h' : goodStore env s1) : goodStore env s2 := by
  intro r hr
  rw [h] at hr
  exact h' r hr

theorem goodStore_mark (env : Env3) (store : Store3) (id : String)
    (h : goodStore env store) :
    goodStore env (mark_email_extracted env store id).1 := by
  unfold mark_email_extracted
  split
  · intro r hr
    simp only at hr
    rcases List.mem_map.mp hr with ⟨r0, hr0, rfl⟩
    rcases h r0 hr0 with ⟨he, hresp, i, hi, hmi⟩
    have hfields : (if r0.snapshot_id = some id then
        ({ r0 with extracted := true } : RespRow) else r0).snapshot_id =
          r0.snapshot_id ∧
        (if r0.snapshot_id = some id then
          ({ r0 with extracted := true } : RespRow) else r0).response =
          r0.response ∧
        (if r0.snapshot_id = some id then
          ({ r0 with extracted := true } : RespRow) else r0).exn = r0.exn := by
      by_cases hid : r0.snapshot_id = some id
      · simp [hid]
      · simp [hid]
    exact ⟨hfields.2.2.trans he, by rw [hfields.2.1]; exact hresp, i,
      hfields.1.trans hi, hmi⟩
  · exact h

theorem goodStore_processRow (env : Env3) (acc : Store3 × Stage3Stats)
    (row : RespRow) (h : goodStore env acc.1) :
    goodStore env (processRow env acc row).1 := by
  rcases row with ⟨sid, resp, ex, rexn⟩
  rcases sid with _ | id <;> rcases resp with _ | d
  · exact h
  · exact h
  · exact h
  · simp only [processRow]
    split
    · exact h
    · exact goodStore_mark env _ id
        (goodStore_resps_congr (processEmails_resps env _ _) h)

theorem goodStore_processPage (env : Env3) :
    ∀ (rows : List RespRow) (acc : Store3 × Stage3Stats),
      goodStore env acc.1 → goodStore env (processPage env acc rows).1 := by
  intro rows
  induction rows with
  | nil => intro acc h; exact h
  | cons r rs ih =>
    intro acc h
    exact ih (processRow env acc r) (goodStore_processRow env acc r h)

theorem page_mem (store : Store3) (limit : Nat) :
    ∀ r ∈ get_unextracted_responses store limit 0,
      r ∈ store.resps ∧ r.extracted = false := by
  intro r hr
  unfold get_unextracted_responses at hr
  rw [List.drop_zero] at hr
  have hf := List.take_subset _ _ hr
  have hm := List.mem_filter.mp hf
  exact ⟨hm.1, by simpa using hm.2⟩

theorem process_stage3_terminates (env : Env3) (b : Nat) (hb : 0 < b) :
    ∀ (n : Nat) (store : Store3) (stats : Stage3Stats),
      goodStore env store → unexCount store ≤ n →
      (process_stage3 env b (n + 1) (store, stats)).isSome = true := by
  intro n
  induction n with
  | zero =>
    intro store stats _ hc
    have hfil : store.resps.filter (fun r => !r.extracted) = [] :=
      List.length_eq_zero.mp (Nat.le_zero.mp hc)
    simp [process_stage3, get_unextracted_responses, hfil]
  | succ n ih =>
    intro store stats hg hc
    simp only [process_stage3]
    by_cases hpage : (get_unextracted_responses store b 0).isEmpty = true
    · rw [if_pos hpage]
      rfl
    · rw [if_neg hpage]
      have hne : get_unextracted_responses store b 0 ≠ [] := by
        intro hnil
        rw [hnil] at hpage
        exact hpage rfl
      rcases List.exists_cons_of_ne_nil hne with ⟨r0, rest, hcons⟩
      have hr0 : r0 ∈ store.resps ∧ r0.extracted = false :=
        page_mem store b r0 (hcons ▸ List.mem_cons_self r0 rest)
      rcases hg r0 hr0.1 with ⟨hexn, hresp, i, hi, hmi⟩
      rcases hd : r0.response with _ | d
      · exact absurd hd hresp
      · have hrow : r0 = ⟨some i, some d, r0.extracted, false⟩ := by
          rcases r0 with ⟨s0, p0, e0, x0⟩
          simp only at hi hd hexn
          rw [hi, hd, hexn]
        have hlt : unexCount (processRow env (store, stats) r0).1 <
            unexCount store := by
          rw [hrow]
          exact unexCount_processRow_lt env (store, stats) i d r0.extracted
            (by rw [← hrow]; exact hr0.1) hr0.2 hmi
        have hle : unexCount (processPage env (store, stats)
            (get_unextracted_responses store b 0)).1 ≤
            unexCount (processRow env (store, stats) r0).1 := by
          rw [hcons]
          exact unexCount_processPage_le env rest _
        have hgood : goodStore env (processPage env (store, stats)
            (get_unextracted_responses store b 0)).1 :=
          goodStore_processPage env _ _ hg
        rcases hps : processPage env (store, stats)
            (get_unextracted_responses store b 0) with ⟨store', stats'⟩
        rw [hps] at hle hgood
        have hle' : unexCount store' ≤
            unexCount (processRow env (store, stats) r0).1 := hle
        exact ih store' stats' hgood (by omega)

theorem badRow_processRow (env : Env3) (acc : Store3 × Stage3Stats)
    (row : RespRow) (id : String) (hm : env.markOk id = false)
    (h : ∃ r ∈ acc.1.resps, r.extracted = false ∧ r.snapshot_id = some id) :
    ∃ r ∈ (processRow env acc row).1.resps,
      r.extracted = false ∧ r.snapshot_id = some id := by
  have hmark : ∀ (store : Store3) (id' : String),
      (∃ r ∈ store.resps, r.extracted = false ∧ r.snapshot_id = some id) →
      ∃ r ∈ (mark_email_extracted env store id').1.resps,
        r.extracted = false ∧ r.snapshot_id = some id := by
    intro store id' ⟨r, hr, hex, hid⟩
    unfold mark_email_extracted
    split
    case isTrue hok =>
      have hne : id' ≠ id := by
        intro hcontra
        rw [hcontra, hm] at hok
        cases hok
      refine ⟨r, ?_, hex, hid⟩
      simp only
      have hfr : (if r.snapshot_id = some id' then
          ({ r with extracted := true } : RespRow) else r) = r := by
        rw [if_neg]
        rw [hid]
        intro hcontra
        exact hne (by injection hcontra with h'; exact h'.symm)
      rw [← hfr]
      exact List.mem_map_of_mem _ hr
    case isFalse => exact ⟨r, hr, hex, hid⟩
  rcases row with ⟨sid, resp, ex, rexn⟩
  rcases sid with _ | id' <;> rcases resp with _ | d
  · exact h
  · exact h
  · exact h
  · simp only [processRow]
    split
    · exact h
    · apply hmark
      rcases h with ⟨r, hr, hex, hid⟩
      refine ⟨r, ?_, hex, hid⟩
      rw [processEmails_resps env _ _]
      exact hr

theorem badRow_processPage (env : Env3) (id : String)
    (hm : env.markOk id = false) :
    ∀ (rows : List RespRow) (acc : Store3 × Stage3Stats),
      (∃ r ∈ acc.1.resps, r.extracted = false ∧ r.snapshot_id = some id) →
      ∃ r ∈ (processPage env acc rows).1.resps,
        r.extracted = false ∧ r.snapshot_id = some id := by
  intro rows
  induction rows with
  | nil => intro acc h; exact h
  | cons r rs ih =>
    intro acc h
    exact ih (processRow env acc r) (badRow_processRow env acc r id hm h)

theorem process_stage3_diverges (env : Env3) (b : Nat) (hb : 0 < b)
    (id : String) (hm : env.markOk id = false) :
    ∀ (fuel : Nat) (acc : Store3 × Stage3Stats),
      (∃ r ∈ acc.1.resps, r.extracted = false ∧ r.snapshot_id = some id) →
      process_stage3 env b fuel acc = none := by
  intro fuel
  induction fuel with
  | zero => intro acc _; rfl
  | succ f ih =>
    intro acc h
    have hne : get_unextracted_responses acc.1 b 0 ≠ [] := by
      rcases h with ⟨r, hr, hex, hid⟩
      have hrf : r ∈ acc.1.resps.filter (fun r => !r.extracted) :=
        List.mem_filter.mpr ⟨hr, by simp [hex]⟩
      have hfne : acc.1.resps.filter (fun r => !r.extracted) ≠ [] :=
        List.ne_nil_of_mem hrf
      rcases List.exists_cons_of_ne_nil hfne with ⟨c, cs, hcons⟩
      unfold get_unextracted_responses
      rw [List.drop_zero, hcons]
      cases b with
      | zero => omega
      | succ b' => simp
    simp only [process_stage3]
    rw [if_neg (by simpa [List.isEmpty_iff] using hne)]
    exact ih _ (badRow_processPage env id hm _ _ h)

/-- C9: the extraction loop terminates for every well-formed store whose
flag updates succeed — `unexCount + 1` page iterations suffice because
each non-empty page strictly shrinks the unextracted set — and if some
unextracted row's flag update fails persistently, the loop re-fetches a
non-empty page from offset zero forever and never returns. -/
theorem c9_extraction_loop_termination :
    (∀ (env : Env3) (b : Nat) (store : Store3) (stats : Stage3Stats),
      0 < b → goodStore env store →
      (process_stage3 env b (unexCount store + 1) (store, stats)).isSome =
        true) ∧
    (∀ (env : Env3) (b : Nat) (acc : Store3 × Stage3Stats) (id : String),
      0 < b → env.markOk id = false →
      (∃ r ∈ acc.1.resps, r.extracted = false ∧ r.snapshot_id = some id) →
      ∀ fuel, process_stage3 env b fuel acc = none) := by
  constructor
  · intro env b store stats hb hg
    exact process_stage3_terminates env b hb (unexCount store) store stats hg
      (Nat.le_refl _)
  · intro env b acc id hb hm h fuel
    exact process_stage3_diverges env b hb id hm fuel acc h

/-- Witness for C9: a one-row store terminates in one page pass when
the flag update succeeds, and loops (never completes within any
budget, shown at budget 5) when it fails persistently. -/
theorem c9_extraction_loop_termination_witness :
    (process_stage3 c9EnvGood 20 (unexCount c9Store + 1)
      (c9Store, stage3Stats0)).isSome = true ∧
    process_stage3 c9EnvBad 20 5 (c9Store, stage3Stats0) = none :=
  ⟨c9_extraction_loop_termination.1 c9EnvGood 20 c9Store stage3Stats0
      (by decide)
      (by
        intro r hr
        simp only [c9Store, List.mem_singleton] at hr
        subst hr
        exact ⟨rfl, by simp, "r1", rfl, rfl⟩),
   c9_extraction_loop_termination.2 c9EnvBad 20 (c9Store, stage3Stats0) "r1"
      (by decide) rfl
      ⟨⟨some "r1", some ⟨"[1]", true⟩, false, false⟩,
        by simp [c9Store], rfl, rfl⟩ 5⟩
